import Mathlib

/-!
Verification of the messaging core of the OneSignal Website SDK
(`src/libraries/WorkerMessenger.ts`): the reply-listener registry
(`WorkerMessengerReplyBuffer`) and the `WorkerMessenger` operations built on
top of it (dispatch on receive, `on`/`once`/`off`, `broadcast`, `unicast`,
`isWorkerControllingPage`).

The embedding is shallow: the JS object `replies : object`, whose keys are
command strings and whose values are arrays of listener records (or `null`
after `deleteListenerRecords`, or absent), becomes an association list
`List (String × Option (List WorkerMessengerReplyBufferRecord))` — an absent
key models JS `undefined`, a present key with `none` models JS `null`.
JS object reference identity of listener records (the `===` comparison in
`deleteListenerRecord`) is modelled by giving every allocated record a fresh
numeric `id` drawn from a counter carried in the buffer.  Fallible JS code
(a thrown `TypeError` or `InvalidArgumentError`) becomes `Option`/`Except`.
Callback functions are modelled as numeric identifiers whose behaviour, for
the re-entrancy theorems, is supplied by an environment mapping each
callback identifier to a list of messenger actions it performs when invoked.
-/

namespace WM

/-- The `WorkerMessengerCommand` string enum of `WorkerMessenger.ts`. -/
inductive WorkerMessengerCommand where
  | WorkerVersion
  | Subscribe
  | AmpSubscriptionState
  | AmpSubscribe
  | AmpUnsubscribe
  | NotificationDisplayed
  | NotificationClicked
  | NotificationDismissed
  | RedirectPage
deriving DecidableEq, Repr

/-- The string value of each enum member, as in the source; used via
`command.toString()` as the key into the `replies` object. -/
def cmdToString : WorkerMessengerCommand → String
  | .WorkerVersion => "GetWorkerVersion"
  | .Subscribe => "Subscribe"
  | .AmpSubscriptionState => "amp-web-push-subscription-state"
  | .AmpSubscribe => "amp-web-push-subscribe"
  | .AmpUnsubscribe => "amp-web-push-unsubscribe"
  | .NotificationDisplayed => "notification.displayed"
  | .NotificationClicked => "notification.clicked"
  | .NotificationDismissed => "notification.dismissed"
  | .RedirectPage => "command.redirect"

/-- `WorkerMessengerPayload = Serializable | number | string | object |
boolean`.  Serializable and plain objects are opaque to the messenger, so
they are carried as inert data. -/
inductive WorkerMessengerPayload where
  | serializable (s : String)
  | num (n : Int)
  | str (s : String)
  | obj (fields : List (String × String))
  | boolean (b : Bool)
deriving DecidableEq, Repr

/-- `WorkerMessengerReplyBufferRecord { callback, onceListenerOnly }`.
`id` models the JS object reference identity of the record: each record
literal allocated by `addListener` is a distinct object, and
`deleteListenerRecord` compares records with `===`. `callback` is the
identifier of the registered callback function. -/
structure WorkerMessengerReplyBufferRecord where
  id : Nat
  callback : Nat
  onceListenerOnly : Bool
deriving DecidableEq, Repr

/-- A JS object used as a string-keyed map: absent key = `undefined`,
`some none` = `null`, `some (some arr)` = an array value. -/
def Replies := List (String × Option (List WorkerMessengerReplyBufferRecord))
deriving DecidableEq, Repr

/-- Property read `obj[key]`: `none` = `undefined`. -/
def getEntry : Replies → String → Option (Option (List WorkerMessengerReplyBufferRecord))
  | [], _ => none
  | (k, v) :: rest, key => if k = key then some v else getEntry rest key

/-- Property write `obj[key] = v`. -/
def setEntry : Replies → String → Option (List WorkerMessengerReplyBufferRecord) → Replies
  | [], key, v => [(key, v)]
  | (k, w) :: rest, key, v =>
      if k = key then (k, v) :: rest else (k, w) :: setEntry rest key v

/-- The `WorkerMessengerReplyBuffer`.  `nextId` is the allocation counter
that hands out fresh record identities (see
`WorkerMessengerReplyBufferRecord.id`). -/
structure WorkerMessengerReplyBuffer where
  replies : Replies
  nextId : Nat
deriving DecidableEq, Repr

/-- The freshly constructed buffer: `this.replies = {}`. -/
def emptyBuffer : WorkerMessengerReplyBuffer := ⟨[], 0⟩

/-- `findListenersForMessage(command)`: `this.replies[command.toString()] || []`.
An array value (even an empty one) is truthy, so it is returned as is;
`undefined` and `null` are falsy and yield `[]`. -/
def findListenersForMessage (buf : WorkerMessengerReplyBuffer)
    (command : WorkerMessengerCommand) : List WorkerMessengerReplyBufferRecord :=
  match getEntry buf.replies (cmdToString command) with
  | some (some listeners) => listeners
  | _ => []

/-- `addListener(command, callback, onceListenerOnly)`: allocates a fresh
record and pushes it onto the topic's array, creating the array when the
lookup finds no records. -/
def addListener (buf : WorkerMessengerReplyBuffer) (command : WorkerMessengerCommand)
    (callback : Nat) (onceListenerOnly : Bool) : WorkerMessengerReplyBuffer :=
  let record : WorkerMessengerReplyBufferRecord :=
    ⟨buf.nextId, callback, onceListenerOnly⟩
  let replies' :=
    if (findListenersForMessage buf command).length > 0 then
      setEntry buf.replies (cmdToString command)
        (some (findListenersForMessage buf command ++ [record]))
    else
      setEntry buf.replies (cmdToString command) (some [record])
  { replies := replies', nextId := buf.nextId + 1 }

/-- `deleteListenerRecords(command)`: `this.replies[command.toString()] = null`. -/
def deleteListenerRecords (buf : WorkerMessengerReplyBuffer)
    (command : WorkerMessengerCommand) : WorkerMessengerReplyBuffer :=
  { buf with replies := setEntry buf.replies (cmdToString command) none }

/-- `deleteAllListenerRecords()`: `this.replies = {}`. -/
def deleteAllListenerRecords (buf : WorkerMessengerReplyBuffer) :
    WorkerMessengerReplyBuffer :=
  { buf with replies := [] }

/-- `array.splice(i, 1)`. -/
def spliceAt (l : List WorkerMessengerReplyBufferRecord) (i : Nat) :
    List WorkerMessengerReplyBufferRecord :=
  l.take i ++ l.drop (i + 1)

/-- The body of `deleteListenerRecord`'s loop
`for (let i = arr.length - 1; i >= 0; i--) if (arr[i] === target) arr.splice(i, 1)`,
scanning from the end. The first argument is the number of indices still to
examine; index `n` of the current array is examined next. Splicing at `n`
leaves the not-yet-examined indices `0 .. n-1` untouched, as in the source. -/
def deleteLoopGo (target : WorkerMessengerReplyBufferRecord) :
    Nat → List WorkerMessengerReplyBufferRecord → List WorkerMessengerReplyBufferRecord
  | 0, arr => arr
  | n + 1, arr =>
      let arr2 :=
        if h : n < arr.length then
          if (arr.get ⟨n, h⟩).id = target.id then spliceAt arr n else arr
        else arr
      deleteLoopGo target n arr2

/-- `deleteListenerRecord(command, targetRecord)`.  The source reads
`this.replies[command.toString()].length` without a guard: when the entry is
`undefined` (never registered) or `null` (after `deleteListenerRecords`),
that property read throws a `TypeError`, modelled as `none`.  Otherwise the
backward splice loop removes every record reference-equal to `targetRecord`. -/
def deleteListenerRecord (buf : WorkerMessengerReplyBuffer)
    (command : WorkerMessengerCommand) (targetRecord : WorkerMessengerReplyBufferRecord) :
    Option WorkerMessengerReplyBuffer :=
  match getEntry buf.replies (cmdToString command) with
  | some (some listenersForCommand) =>
      some { buf with
        replies := setEntry buf.replies (cmdToString command)
          (some (deleteLoopGo targetRecord listenersForCommand.length listenersForCommand)) }
  | _ => none

/-- `WorkerMessengerMessage { command, payload }`: the `event.data` received
by either message handler. -/
structure WorkerMessengerMessage where
  command : WorkerMessengerCommand
  payload : WorkerMessengerPayload
deriving DecidableEq, Repr

/-- The backward loop of both receive handlers:
`for (let i = listenersToRemove.length - 1; i >= 0; i--)
   this.replies.deleteListenerRecord(data.command, listenersToRemove[i])`.
Processing starts at the last element, so the recursion deletes the tail
records first and the head record last.  A thrown `TypeError` from
`deleteListenerRecord` propagates (`none`). -/
def removeLoop (command : WorkerMessengerCommand) :
    List WorkerMessengerReplyBufferRecord → WorkerMessengerReplyBuffer →
    Option WorkerMessengerReplyBuffer
  | [], buf => some buf
  | r :: rs, buf =>
      match removeLoop command rs buf with
      | none => none
      | some buf2 => deleteListenerRecord buf2 command r

/-- `onWorkerMessageReceivedFromPage(event)` (worker side), restricted to its
registry effect and invocation schedule: look up the listeners for
`data.command`, collect `listenersToRemove` (those with `onceListenerOnly`)
and `listenersToCall` (every matched record, in order), delete the once-only
records first, then invoke every record in `listenersToCall` with
`data.payload`.  The result is the updated buffer paired with the sequence
of invocations `(record id, callback, payload)` in the order the source
performs them. -/
def onWorkerMessageReceivedFromPage (buf : WorkerMessengerReplyBuffer)
    (data : WorkerMessengerMessage) :
    Option (WorkerMessengerReplyBuffer × List (Nat × Nat × WorkerMessengerPayload)) :=
  let listenerRecords := findListenersForMessage buf data.command
  let listenersToRemove := listenerRecords.filter (fun r => r.onceListenerOnly)
  let listenersToCall := listenerRecords
  match removeLoop data.command listenersToRemove buf with
  | none => none
  | some buf2 =>
      some (buf2, listenersToCall.map (fun r => (r.id, r.callback, data.payload)))

/-- `onPageMessageReceivedFromServiceWorker(event)` (page side): textually the
same algorithm as the worker-side handler, translated from its own lines of
the source. -/
def onPageMessageReceivedFromServiceWorker (buf : WorkerMessengerReplyBuffer)
    (data : WorkerMessengerMessage) :
    Option (WorkerMessengerReplyBuffer × List (Nat × Nat × WorkerMessengerPayload)) :=
  let listenerRecords := findListenersForMessage buf data.command
  let listenersToRemove := listenerRecords.filter (fun r => r.onceListenerOnly)
  let listenersToCall := listenerRecords
  match removeLoop data.command listenersToRemove buf with
  | none => none
  | some buf2 =>
      some (buf2, listenersToCall.map (fun r => (r.id, r.callback, data.payload)))

/-- `on(command, callback)`: `this.replies.addListener(command, callback, false)`.
(`on` is a reserved token in Lean, hence the name `onMsg`.) -/
def onMsg (buf : WorkerMessengerReplyBuffer) (command : WorkerMessengerCommand)
    (callback : Nat) : WorkerMessengerReplyBuffer :=
  addListener buf command callback false

/-- `once(command, callback)`: `this.replies.addListener(command, callback, true)`. -/
def once (buf : WorkerMessengerReplyBuffer) (command : WorkerMessengerCommand)
    (callback : Nat) : WorkerMessengerReplyBuffer :=
  addListener buf command callback true

/-- `off(command?)`: with a command, `deleteListenerRecords(command)`
(every enum value is a non-empty string, hence truthy); without,
`deleteAllListenerRecords()`. -/
def off (buf : WorkerMessengerReplyBuffer) (command : Option WorkerMessengerCommand) :
    WorkerMessengerReplyBuffer :=
  match command with
  | some c => deleteListenerRecords buf c
  | none => deleteAllListenerRecords buf

/-! ### Sending, roles and the readiness check

`WindowEnvironmentKind`, `ServiceWorkerActiveState`, `InvalidArgumentError`
and the `Context` collaborator live in repository files that are not under
`src/`; they are modelled from the spec below.  The deciding code of the
send/readiness claims (`broadcast`, `unicast`, `isWorkerControllingPage`)
is in `WorkerMessenger.ts` and is translated from it. -/

/-- Modelled from the spec: the environment probe's classification of the
current execution context (`SdkEnvironment.getWindowEnv()`).  The messenger
only ever branches on whether it equals `ServiceWorker`; the remaining
page-side kinds (host page, frames, unknown) are listed for completeness. -/
inductive WindowEnvironmentKind where
  | ServiceWorker
  | Host
  | Frame
  | CustomIframe
  | Unknown
deriving DecidableEq, Repr

/-- Modelled from the spec: the worker-activation state fetched from the
context (`context.serviceWorkerManager.getActiveState()`): one of the two
recognized SDK worker generations, or a not-active / third-party /
indeterminate state. -/
inductive ServiceWorkerActiveState where
  | WorkerA
  | WorkerB
  | ThirdParty
  | NoneActive
  | Indeterminate
deriving DecidableEq, Repr

/-- Modelled from the spec: the reason carried by an invalid-argument error;
the messenger uses `Empty` for a missing required argument. -/
inductive InvalidArgumentReason where
  | Empty
  | Malformed
deriving DecidableEq, Repr

/-- Modelled from the spec: the error taxonomy surfaced by the messenger
(`InvalidArgumentError(name, reason)` is the only error the core itself
raises). -/
inductive SdkError where
  | invalidArgument (argName : String) (reason : InvalidArgumentReason)
deriving DecidableEq, Repr

/-- A window client handle (`WindowClient`): opaque to the messenger except
for logging its `url`. -/
structure WindowClient where
  url : String
deriving DecidableEq, Repr

/-- A `postMessage` performed by the messenger: the target client and the
posted `{ command, payload }` object (`payload` is optional in `unicast`). -/
structure PostedMessage where
  target : WindowClient
  command : WorkerMessengerCommand
  payload : Option WorkerMessengerPayload
deriving DecidableEq, Repr

/-- `broadcast(command, payload)`: returns immediately when the environment
is not the service worker; otherwise posts `{ command, payload }` to every
window client returned by `self.clients.matchAll({ type: 'window',
includeUncontrolled: true })` (supplied here as `clients`).  The result is
the list of performed posts; the function raises no error. -/
def broadcast (env : WindowEnvironmentKind) (clients : List WindowClient)
    (command : WorkerMessengerCommand) (payload : WorkerMessengerPayload) :
    Except SdkError (List PostedMessage) :=
  if env ≠ WindowEnvironmentKind.ServiceWorker then
    Except.ok []
  else
    Except.ok (clients.map (fun client => ⟨client, command, some payload⟩))

/-- `unicast(command, payload?, windowClient?)`.  Worker role: throws
`InvalidArgumentError('windowClient', Empty)` when no target client is
supplied, otherwise posts `{ command, payload }` to it.  Page role: awaits
`waitUntilWorkerControlsPage()` and then posts to
`navigator.serviceWorker.controller`; the wait is abstracted by supplying
the eventual non-null `controller` directly. -/
def unicast (env : WindowEnvironmentKind) (controller : WindowClient)
    (command : WorkerMessengerCommand) (payload : Option WorkerMessengerPayload)
    (windowClient : Option WindowClient) :
    Except SdkError (List PostedMessage) :=
  if env = WindowEnvironmentKind.ServiceWorker then
    match windowClient with
    | none => Except.error (SdkError.invalidArgument "windowClient" InvalidArgumentReason.Empty)
    | some wc => Except.ok [⟨wc, command, payload⟩]
  else
    Except.ok [⟨controller, command, payload⟩]

/-- `isWorkerControllingPage()`: in the service-worker role,
`!!self.registration.active` (supplied as `registrationActive`); in the page
role, whether the activation state fetched from the context equals
`ServiceWorkerActiveState.WorkerA` or `ServiceWorkerActiveState.WorkerB`. -/
def isWorkerControllingPage (env : WindowEnvironmentKind)
    (registrationActive : Bool) (workerState : ServiceWorkerActiveState) : Bool :=
  if env = WindowEnvironmentKind.ServiceWorker then
    registrationActive
  else
    workerState = ServiceWorkerActiveState.WorkerA ||
      workerState = ServiceWorkerActiveState.WorkerB

/-! ### An execution machine for dispatch

Callbacks are arbitrary JS functions; a callback may itself call the
messenger (re-dispatch a topic, register or unregister listeners).  To state
the claims about re-entrant dispatch, a callback's behaviour is a list of
messenger `Action`s, supplied by an environment `Env` keyed by the callback
identifier.  `run` executes a worklist of pending `Task`s against a machine
state (buffer + invocation trace); the worklist is used as a stack, which
models synchronous nested calls.  `fuel` bounds the number of steps (the
claims only concern runs that complete). -/

/-- What a callback body may do to the messenger when invoked. -/
inductive Action where
  | actDispatch (command : WorkerMessengerCommand) (payload : WorkerMessengerPayload)
  | actOn (command : WorkerMessengerCommand) (cb : Nat)
  | actOnce (command : WorkerMessengerCommand) (cb : Nat)
  | actOff (command : Option WorkerMessengerCommand)
  | actNone
deriving DecidableEq, Repr

/-- Behaviour of each callback identifier. -/
def Env := Nat → List Action

/-- A pending unit of work: dispatch an incoming message, perform one
scheduled callback invocation, or perform one action of a running callback. -/
inductive Task where
  | doDispatch (command : WorkerMessengerCommand) (payload : WorkerMessengerPayload)
  | doInvoke (entry : Nat × Nat × WorkerMessengerPayload)
  | doAction (act : Action)
deriving DecidableEq, Repr

/-- Machine state: the reply buffer plus the trace of callback invocations
performed so far, each recorded as `(record id, callback, payload)` in
execution order. -/
structure MState where
  buf : WorkerMessengerReplyBuffer
  trace : List (Nat × Nat × WorkerMessengerPayload)
deriving DecidableEq, Repr

/-- Execute pending tasks.  Dispatching runs the receive handler: the
registry is updated (once-only records removed) and the matched records'
invocations are scheduled ahead of the remaining tasks, preserving their
order; invoking a record appends it to the trace and schedules the
callback's actions, which run before anything scheduled after it — exactly
the synchronous call order of the source. -/
def run (env : Env) : Nat → MState → List Task → Option MState
  | 0, _, _ => none
  | _ + 1, st, [] => some st
  | fuel + 1, st, t :: ts =>
      match t with
      | .doDispatch c p =>
          match onWorkerMessageReceivedFromPage st.buf ⟨c, p⟩ with
          | none => none
          | some (buf2, calls) =>
              run env fuel { st with buf := buf2 } (calls.map Task.doInvoke ++ ts)
      | .doInvoke e =>
          run env fuel { st with trace := st.trace ++ [e] }
            ((env e.2.1).map Task.doAction ++ ts)
      | .doAction a =>
          match a with
          | .actDispatch c p => run env fuel st (Task.doDispatch c p :: ts)
          | .actOn c cb => run env fuel { st with buf := onMsg st.buf c cb } ts
          | .actOnce c cb => run env fuel { st with buf := once st.buf c cb } ts
          | .actOff c => run env fuel { st with buf := off st.buf c } ts
          | .actNone => run env fuel st ts

/-- The passive environment: callbacks that touch nothing. -/
def envPassive : Env := fun _ => []

/-! ### Registry lemmas -/

theorem getEntry_setEntry (reg : Replies) (k k' : String)
    (v : Option (List WorkerMessengerReplyBufferRecord)) :
    getEntry (setEntry reg k v) k' = if k = k' then some v else getEntry reg k' := by
  induction reg with
  | nil =>
      by_cases h : k = k' <;> simp [setEntry, getEntry, h]
  | cons hd rest ih =>
      obtain ⟨hk, hv⟩ := hd
      by_cases h1 : hk = k
      · subst h1
        by_cases h2 : hk = k' <;> simp [setEntry, getEntry, h2]
      · by_cases h2 : hk = k'
        · subst h2
          have : ¬ k = hk := fun h => h1 h.symm
          simp [setEntry, getEntry, h1, this]
        · simp [setEntry, getEntry, h1, h2, ih]

theorem setEntry_self (reg : Replies) (k : String)
    (v : Option (List WorkerMessengerReplyBufferRecord))
    (h : getEntry reg k = some v) : setEntry reg k v = reg := by
  induction reg with
  | nil => simp [getEntry] at h
  | cons hd rest ih =>
      obtain ⟨hk, hv⟩ := hd
      by_cases h1 : hk = k
      · simp [getEntry, h1] at h
        simp [setEntry, h1, h]
      · simp [getEntry, h1] at h
        simp [setEntry, h1, ih h]

theorem cmdToString_injective (a b : WorkerMessengerCommand)
    (h : cmdToString a = cmdToString b) : a = b := by
  cases a <;> cases b <;> first | rfl | (exfalso; simp [cmdToString] at h)

theorem take_spliceAt (arr : List WorkerMessengerReplyBufferRecord) (n : Nat)
    (h : n ≤ arr.length) : (spliceAt arr n).take n = arr.take n := by
  have hmin : n ⊓ arr.length = n := inf_eq_left.mpr h
  simp [spliceAt, List.take_append_eq_append_take, hmin]

theorem drop_spliceAt (arr : List WorkerMessengerReplyBufferRecord) (n : Nat)
    (h : n < arr.length) : (spliceAt arr n).drop n = arr.drop (n + 1) := by
  have hlen : (arr.take n).length = n := List.length_take_of_le (Nat.le_of_lt h)
  simp [spliceAt, List.drop_append_eq_append_drop, hlen]

theorem length_spliceAt (arr : List WorkerMessengerReplyBufferRecord) (n : Nat)
    (h : n < arr.length) : (spliceAt arr n).length = arr.length - 1 := by
  simp [spliceAt]
  omega

/-- The backward splice loop removes exactly the records reference-equal to
the target among the first `n` positions. -/
theorem deleteLoopGo_eq (t : WorkerMessengerReplyBufferRecord) :
    ∀ (n : Nat) (arr : List WorkerMessengerReplyBufferRecord), n ≤ arr.length →
    deleteLoopGo t n arr =
      (arr.take n).filter (fun r => decide (r.id ≠ t.id)) ++ arr.drop n := by
  intro n
  induction n with
  | zero => intro arr _; simp [deleteLoopGo]
  | succ n ih =>
      intro arr hle
      have hlt : n < arr.length := Nat.lt_of_succ_le hle
      have htake1 : arr.take (n + 1) = arr.take n ++ [arr[n]] := by
        rw [List.take_succ, List.getElem?_eq_getElem hlt]
        rfl
      by_cases hid : arr[n].id = t.id
      · have harr2 : deleteLoopGo t (n + 1) arr = deleteLoopGo t n (spliceAt arr n) := by
          simp only [deleteLoopGo, dif_pos hlt, List.get_eq_getElem, if_pos hid]
        rw [harr2]
        have hlen2 : n ≤ (spliceAt arr n).length := by
          rw [length_spliceAt arr n hlt]; omega
        have hnil : List.filter (fun r => decide (r.id ≠ t.id)) [arr[n]] = [] := by
          simp [hid]
        rw [ih (spliceAt arr n) hlen2, take_spliceAt arr n (Nat.le_of_lt hlt),
          drop_spliceAt arr n hlt, htake1, List.filter_append, hnil, List.append_nil]
      · have harr2 : deleteLoopGo t (n + 1) arr = deleteLoopGo t n arr := by
          simp only [deleteLoopGo, dif_pos hlt, List.get_eq_getElem, if_neg hid]
        rw [harr2, ih arr (Nat.le_of_lt hlt)]
        have hdrop : arr.drop n = arr[n] :: arr.drop (n + 1) :=
          List.drop_eq_getElem_cons hlt
        have hsing : List.filter (fun r => decide (r.id ≠ t.id)) [arr[n]] = [arr[n]] := by
          simp [hid]
        rw [htake1, hdrop, List.filter_append, hsing, List.append_assoc,
          List.singleton_append]

theorem deleteLoopGo_full (t : WorkerMessengerReplyBufferRecord)
    (arr : List WorkerMessengerReplyBufferRecord) :
    deleteLoopGo t arr.length arr = arr.filter (fun r => decide (r.id ≠ t.id)) := by
  rw [deleteLoopGo_eq t arr.length arr (Nat.le_refl _)]
  simp

theorem setEntry_setEntry (reg : Replies) (k : String)
    (v v' : Option (List WorkerMessengerReplyBufferRecord)) :
    setEntry (setEntry reg k v) k v' = setEntry reg k v' := by
  induction reg with
  | nil => simp [setEntry]
  | cons hd rest ih =>
      obtain ⟨hk, hv⟩ := hd
      by_cases h1 : hk = k <;> simp [setEntry, h1, ih]

/-! ### Characterizations of the buffer operations -/

theorem findListeners_of_entry (buf : WorkerMessengerReplyBuffer)
    (c : WorkerMessengerCommand) (arr : List WorkerMessengerReplyBufferRecord)
    (h : getEntry buf.replies (cmdToString c) = some (some arr)) :
    findListenersForMessage buf c = arr := by
  simp [findListenersForMessage, h]

theorem findListeners_of_undefined (buf : WorkerMessengerReplyBuffer)
    (c : WorkerMessengerCommand)
    (h : getEntry buf.replies (cmdToString c) = none) :
    findListenersForMessage buf c = [] := by
  simp [findListenersForMessage, h]

theorem findListeners_of_null (buf : WorkerMessengerReplyBuffer)
    (c : WorkerMessengerCommand)
    (h : getEntry buf.replies (cmdToString c) = some none) :
    findListenersForMessage buf c = [] := by
  simp [findListenersForMessage, h]

theorem getEntry_addListener (buf : WorkerMessengerReplyBuffer)
    (c : WorkerMessengerCommand) (cb : Nat) (o : Bool) (k : String) :
    getEntry (addListener buf c cb o).replies k =
      if cmdToString c = k then
        some (some (findListenersForMessage buf c ++ [⟨buf.nextId, cb, o⟩]))
      else getEntry buf.replies k := by
  by_cases h : (findListenersForMessage buf c).length > 0
  · simp [addListener, h, getEntry_setEntry]
  · have hnil : findListenersForMessage buf c = [] := by
      rcases List.eq_nil_or_concat (findListenersForMessage buf c) with h0 | ⟨l, a, h0⟩
      · exact h0
      · exfalso; apply h; rw [h0]; simp
    simp [addListener, h, getEntry_setEntry, hnil]

theorem nextId_addListener (buf : WorkerMessengerReplyBuffer)
    (c : WorkerMessengerCommand) (cb : Nat) (o : Bool) :
    (addListener buf c cb o).nextId = buf.nextId + 1 := by
  by_cases h : (findListenersForMessage buf c).length > 0 <;> simp [addListener, h]

theorem findListeners_addListener_self (buf : WorkerMessengerReplyBuffer)
    (c : WorkerMessengerCommand) (cb : Nat) (o : Bool) :
    findListenersForMessage (addListener buf c cb o) c =
      findListenersForMessage buf c ++ [⟨buf.nextId, cb, o⟩] := by
  rw [findListeners_of_entry _ c _ ?_]
  rw [getEntry_addListener]
  simp

theorem findListeners_addListener_other (buf : WorkerMessengerReplyBuffer)
    (c c' : WorkerMessengerCommand) (cb : Nat) (o : Bool)
    (h : cmdToString c ≠ cmdToString c') :
    findListenersForMessage (addListener buf c cb o) c' =
      findListenersForMessage buf c' := by
  unfold findListenersForMessage
  rw [getEntry_addListener, if_neg h]

theorem getEntry_deleteListenerRecords (buf : WorkerMessengerReplyBuffer)
    (c : WorkerMessengerCommand) (k : String) :
    getEntry (deleteListenerRecords buf c).replies k =
      if cmdToString c = k then some none else getEntry buf.replies k := by
  simp [deleteListenerRecords, getEntry_setEntry]

theorem findListeners_deleteListenerRecords_self (buf : WorkerMessengerReplyBuffer)
    (c : WorkerMessengerCommand) :
    findListenersForMessage (deleteListenerRecords buf c) c = [] := by
  unfold findListenersForMessage
  rw [getEntry_deleteListenerRecords, if_pos rfl]

theorem findListeners_deleteListenerRecords_other (buf : WorkerMessengerReplyBuffer)
    (c c' : WorkerMessengerCommand) (h : cmdToString c ≠ cmdToString c') :
    findListenersForMessage (deleteListenerRecords buf c) c' =
      findListenersForMessage buf c' := by
  unfold findListenersForMessage
  rw [getEntry_deleteListenerRecords, if_neg h]

theorem findListeners_deleteAllListenerRecords (buf : WorkerMessengerReplyBuffer)
    (c : WorkerMessengerCommand) :
    findListenersForMessage (deleteAllListenerRecords buf) c = [] := by
  simp [findListenersForMessage, deleteAllListenerRecords, getEntry]

theorem deleteListenerRecord_eq (buf : WorkerMessengerReplyBuffer)
    (c : WorkerMessengerCommand) (t : WorkerMessengerReplyBufferRecord)
    (arr : List WorkerMessengerReplyBufferRecord)
    (h : getEntry buf.replies (cmdToString c) = some (some arr)) :
    deleteListenerRecord buf c t =
      some ⟨setEntry buf.replies (cmdToString c)
        (some (arr.filter (fun r => decide (r.id ≠ t.id)))), buf.nextId⟩ := by
  simp [deleteListenerRecord, h, deleteLoopGo_full]

theorem deleteListenerRecord_none_undefined (buf : WorkerMessengerReplyBuffer)
    (c : WorkerMessengerCommand) (t : WorkerMessengerReplyBufferRecord)
    (h : getEntry buf.replies (cmdToString c) = none) :
    deleteListenerRecord buf c t = none := by
  simp [deleteListenerRecord, h]

theorem deleteListenerRecord_none_null (buf : WorkerMessengerReplyBuffer)
    (c : WorkerMessengerCommand) (t : WorkerMessengerReplyBufferRecord)
    (h : getEntry buf.replies (cmdToString c) = some none) :
    deleteListenerRecord buf c t = none := by
  simp [deleteListenerRecord, h]

theorem removeLoop_eq (c : WorkerMessengerCommand)
    (rs : List WorkerMessengerReplyBufferRecord) (buf : WorkerMessengerReplyBuffer)
    (arr : List WorkerMessengerReplyBufferRecord)
    (h : getEntry buf.replies (cmdToString c) = some (some arr)) :
    removeLoop c rs buf =
      some ⟨setEntry buf.replies (cmdToString c)
        (some (arr.filter (fun r => rs.all (fun t => decide (r.id ≠ t.id))))),
        buf.nextId⟩ := by
  induction rs with
  | nil =>
      simp [removeLoop, setEntry_self _ _ _ h]
  | cons r rs ih =>
      rw [removeLoop, ih]
      simp [deleteListenerRecord, getEntry_setEntry, deleteLoopGo_full,
        setEntry_setEntry, List.filter_filter, List.all_cons, Bool.and_comm]

/-! ### Characterizations of the receive handler -/

theorem handler_of_empty (buf : WorkerMessengerReplyBuffer) (d : WorkerMessengerMessage)
    (h : findListenersForMessage buf d.command = []) :
    onWorkerMessageReceivedFromPage buf d = some (buf, []) := by
  simp [onWorkerMessageReceivedFromPage, h, removeLoop]

theorem handler_of_entry (buf : WorkerMessengerReplyBuffer) (d : WorkerMessengerMessage)
    (arr : List WorkerMessengerReplyBufferRecord)
    (h : getEntry buf.replies (cmdToString d.command) = some (some arr)) :
    onWorkerMessageReceivedFromPage buf d =
      some (⟨setEntry buf.replies (cmdToString d.command)
          (some (arr.filter (fun r =>
            (arr.filter (fun t => t.onceListenerOnly)).all
              (fun t => decide (r.id ≠ t.id))))), buf.nextId⟩,
        arr.map (fun r => (r.id, r.callback, d.payload))) := by
  have hf : findListenersForMessage buf d.command = arr := findListeners_of_entry _ _ _ h
  simp only [onWorkerMessageReceivedFromPage, hf]
  rw [removeLoop_eq _ _ _ _ h]

theorem handler_isSome (buf : WorkerMessengerReplyBuffer) (d : WorkerMessengerMessage) :
    ∃ buf2, onWorkerMessageReceivedFromPage buf d =
      some (buf2, (findListenersForMessage buf d.command).map
        (fun r => (r.id, r.callback, d.payload))) := by
  cases hget : getEntry buf.replies (cmdToString d.command) with
  | none =>
      have hf := findListeners_of_undefined buf d.command hget
      exact ⟨buf, by rw [handler_of_empty _ _ hf, hf]; rfl⟩
  | some v =>
      cases v with
      | none =>
          have hf := findListeners_of_null buf d.command hget
          exact ⟨buf, by rw [handler_of_empty _ _ hf, hf]; rfl⟩
      | some arr =>
          have hf := findListeners_of_entry buf d.command arr hget
          exact ⟨_, by rw [handler_of_entry _ _ _ hget, hf]⟩

theorem handler_calls (buf buf2 : WorkerMessengerReplyBuffer) (d : WorkerMessengerMessage)
    (calls : List (Nat × Nat × WorkerMessengerPayload))
    (h : onWorkerMessageReceivedFromPage buf d = some (buf2, calls)) :
    calls = (findListenersForMessage buf d.command).map
      (fun r => (r.id, r.callback, d.payload)) := by
  obtain ⟨b2, hb2⟩ := handler_isSome buf d
  rw [hb2] at h
  simp only [Option.some.injEq, Prod.mk.injEq] at h
  exact h.2.symm

theorem handler_nextId (buf buf2 : WorkerMessengerReplyBuffer) (d : WorkerMessengerMessage)
    (calls : List (Nat × Nat × WorkerMessengerPayload))
    (h : onWorkerMessageReceivedFromPage buf d = some (buf2, calls)) :
    buf2.nextId = buf.nextId := by
  cases hget : getEntry buf.replies (cmdToString d.command) with
  | none =>
      rw [handler_of_empty _ _ (findListeners_of_undefined buf d.command hget)] at h
      cases h; rfl
  | some v =>
      cases v with
      | none =>
          rw [handler_of_empty _ _ (findListeners_of_null buf d.command hget)] at h
          cases h; rfl
      | some arr =>
          rw [handler_of_entry _ _ _ hget] at h
          cases h; rfl

theorem handler_entries_sub (buf buf2 : WorkerMessengerReplyBuffer)
    (d : WorkerMessengerMessage) (calls : List (Nat × Nat × WorkerMessengerPayload))
    (h : onWorkerMessageReceivedFromPage buf d = some (buf2, calls))
    (k : String) (arr2 : List WorkerMessengerReplyBufferRecord)
    (r : WorkerMessengerReplyBufferRecord)
    (hget2 : getEntry buf2.replies k = some (some arr2)) (hr : r ∈ arr2) :
    ∃ arr, getEntry buf.replies k = some (some arr) ∧ r ∈ arr := by
  cases hget : getEntry buf.replies (cmdToString d.command) with
  | none =>
      rw [handler_of_empty _ _ (findListeners_of_undefined buf d.command hget)] at h
      cases h
      exact ⟨arr2, hget2, hr⟩
  | some v =>
      cases v with
      | none =>
          rw [handler_of_empty _ _ (findListeners_of_null buf d.command hget)] at h
          cases h
          exact ⟨arr2, hget2, hr⟩
      | some arr =>
          rw [handler_of_entry _ _ _ hget] at h
          cases h
          rw [getEntry_setEntry] at hget2
          by_cases hk : cmdToString d.command = k
          · rw [if_pos hk] at hget2
            cases hget2
            rw [← hk]
            exact ⟨arr, hget, List.mem_of_mem_filter hr⟩
          · rw [if_neg hk] at hget2
            exact ⟨arr2, hget2, hr⟩

theorem handler_once_removed (buf buf2 : WorkerMessengerReplyBuffer)
    (d : WorkerMessengerMessage) (calls : List (Nat × Nat × WorkerMessengerPayload))
    (h : onWorkerMessageReceivedFromPage buf d = some (buf2, calls)) :
    ∀ r ∈ findListenersForMessage buf2 d.command, r.onceListenerOnly = false := by
  intro r hr
  cases hget : getEntry buf.replies (cmdToString d.command) with
  | none =>
      rw [handler_of_empty _ _ (findListeners_of_undefined buf d.command hget)] at h
      cases h
      rw [findListeners_of_undefined buf d.command hget] at hr
      cases hr
  | some v =>
      cases v with
      | none =>
          rw [handler_of_empty _ _ (findListeners_of_null buf d.command hget)] at h
          cases h
          rw [findListeners_of_null buf d.command hget] at hr
          cases hr
      | some arr =>
          rw [handler_of_entry _ _ _ hget] at h
          cases h
          rw [findListeners_of_entry _ _ _ (by rw [getEntry_setEntry, if_pos rfl])] at hr
          rw [List.mem_filter] at hr
          obtain ⟨hmem, hpred⟩ := hr
          cases hob : r.onceListenerOnly with
          | false => rfl
          | true =>
              exfalso
              have hrrem : r ∈ arr.filter (fun t => t.onceListenerOnly) :=
                List.mem_filter.mpr ⟨hmem, hob⟩
              have hall := List.all_eq_true.mp hpred r hrrem
              simp at hall

/-! ### Counting invocations of one listener record across a run -/

/-- How many trace entries belong to the record with identity `i`. -/
def countId (i : Nat) : List (Nat × Nat × WorkerMessengerPayload) → Nat
  | [] => 0
  | e :: tr => (if e.1 = i then 1 else 0) + countId i tr

/-- How many pending invocations of the record with identity `i` the
worklist holds. -/
def taskCount (i : Nat) : List Task → Nat
  | [] => 0
  | Task.doInvoke e :: ts => (if e.1 = i then 1 else 0) + taskCount i ts
  | Task.doDispatch _ _ :: ts => taskCount i ts
  | Task.doAction _ :: ts => taskCount i ts

/-- The record with identity `i` has been allocated already (`i < nextId`)
but no longer occurs anywhere in the registry.  Such a record can never be
invoked again: registrations allocate fresh identities and dispatch only
schedules records found in the registry. -/
def NotLive (i : Nat) (buf : WorkerMessengerReplyBuffer) : Prop :=
  i < buf.nextId ∧
    ∀ k arr, getEntry buf.replies k = some (some arr) → ∀ r ∈ arr, r.id ≠ i

theorem countId_append (i : Nat) (tr1 tr2 : List (Nat × Nat × WorkerMessengerPayload)) :
    countId i (tr1 ++ tr2) = countId i tr1 + countId i tr2 := by
  induction tr1 with
  | nil => simp [countId]
  | cons e tr ih => simp [countId, ih]; omega

theorem countId_zero (i : Nat) (l : List (Nat × Nat × WorkerMessengerPayload))
    (h : ∀ e ∈ l, e.1 ≠ i) : countId i l = 0 := by
  induction l with
  | nil => rfl
  | cons e tr ih =>
      have he : ¬ e.1 = i := h e (List.mem_cons_self e tr)
      simp [countId, he]
      exact ih (fun x hx => h x (List.mem_cons_of_mem e hx))

theorem taskCount_invokes (i : Nat) (l : List (Nat × Nat × WorkerMessengerPayload))
    (ts : List Task) :
    taskCount i (l.map Task.doInvoke ++ ts) = countId i l + taskCount i ts := by
  induction l with
  | nil => simp [countId]
  | cons e tr ih => simp [countId, taskCount, ih]; omega

theorem taskCount_actions (i : Nat) (l : List Action) (ts : List Task) :
    taskCount i (l.map Task.doAction ++ ts) = taskCount i ts := by
  induction l with
  | nil => simp
  | cons a acts ih => simp [taskCount, ih]

theorem notLive_find (i : Nat) (buf : WorkerMessengerReplyBuffer)
    (h : NotLive i buf) (c : WorkerMessengerCommand) :
    ∀ r ∈ findListenersForMessage buf c, r.id ≠ i := by
  intro r hr
  cases hget : getEntry buf.replies (cmdToString c) with
  | none => rw [findListeners_of_undefined _ _ hget] at hr; cases hr
  | some v =>
      cases v with
      | none => rw [findListeners_of_null _ _ hget] at hr; cases hr
      | some arr =>
          rw [findListeners_of_entry _ _ _ hget] at hr
          exact h.2 _ _ hget r hr

theorem notLive_addListener (i : Nat) (buf : WorkerMessengerReplyBuffer)
    (h : NotLive i buf) (c : WorkerMessengerCommand) (cb : Nat) (o : Bool) :
    NotLive i (addListener buf c cb o) := by
  constructor
  · rw [nextId_addListener]; exact Nat.lt_succ_of_lt h.1
  · intro k arr hget r hr
    rw [getEntry_addListener] at hget
    by_cases hk : cmdToString c = k
    · rw [if_pos hk] at hget
      cases hget
      rcases List.mem_append.mp hr with h1 | h1
      · exact notLive_find i buf h c r h1
      · rw [List.mem_singleton] at h1
        subst h1
        exact Nat.ne_of_gt h.1
    · rw [if_neg hk] at hget
      exact h.2 _ _ hget r hr

theorem notLive_off (i : Nat) (buf : WorkerMessengerReplyBuffer)
    (h : NotLive i buf) (c : Option WorkerMessengerCommand) :
    NotLive i (off buf c) := by
  cases c with
  | some c =>
      refine ⟨h.1, ?_⟩
      intro k arr hget r hr
      rw [off] at hget
      rw [getEntry_deleteListenerRecords] at hget
      by_cases hk : cmdToString c = k
      · rw [if_pos hk] at hget; cases hget
      · rw [if_neg hk] at hget
        exact h.2 _ _ hget r hr
  | none =>
      refine ⟨h.1, ?_⟩
      intro k arr hget r hr
      simp [off, deleteAllListenerRecords, getEntry] at hget

theorem notLive_handler (i : Nat) (buf buf2 : WorkerMessengerReplyBuffer)
    (d : WorkerMessengerMessage) (calls : List (Nat × Nat × WorkerMessengerPayload))
    (h : NotLive i buf) (hh : onWorkerMessageReceivedFromPage buf d = some (buf2, calls)) :
    NotLive i buf2 := by
  constructor
  · rw [handler_nextId _ _ _ _ hh]; exact h.1
  · intro k arr2 hget r hr
    obtain ⟨arr, hg, hm⟩ := handler_entries_sub _ _ _ _ hh k arr2 r hget hr
    exact h.2 _ _ hg r hm

/-- Key invariant: if the record `i` is no longer in the registry, a
completed run adds exactly the pending invocations of `i` to the trace —
in particular none once it is gone — and `i` stays out of the registry. -/
theorem run_count (i : Nat) (env : Env) :
    ∀ (fuel : Nat) (st : MState) (tasks : List Task) (st' : MState),
    NotLive i st.buf → run env fuel st tasks = some st' →
    NotLive i st'.buf ∧
      countId i st'.trace = countId i st.trace + taskCount i tasks := by
  intro fuel
  induction fuel with
  | zero => intro st tasks st' _ h; simp [run] at h
  | succ fuel ih =>
      intro st tasks st' hnl hrun
      cases tasks with
      | nil =>
          rw [run] at hrun
          cases hrun
          exact ⟨hnl, by simp [taskCount]⟩
      | cons t ts =>
          cases t with
          | doDispatch c p =>
              rw [run] at hrun
              cases hh : onWorkerMessageReceivedFromPage st.buf ⟨c, p⟩ with
              | none => rw [hh] at hrun; simp at hrun
              | some pr =>
                  obtain ⟨buf2, calls⟩ := pr
                  rw [hh] at hrun
                  have hnl2 : NotLive i buf2 := notLive_handler i st.buf buf2 _ _ hnl hh
                  obtain ⟨hnl', hcount⟩ := ih _ _ _ hnl2 hrun
                  refine ⟨hnl', ?_⟩
                  rw [hcount, taskCount_invokes]
                  have hz : countId i calls = 0 := by
                    apply countId_zero
                    intro e he
                    rw [handler_calls _ _ _ _ hh] at he
                    obtain ⟨r, hr, rfl⟩ := List.mem_map.mp he
                    exact notLive_find i st.buf hnl c r hr
                  rw [hz]
                  simp [taskCount]
          | doInvoke e =>
              rw [run] at hrun
              obtain ⟨hnl', hcount⟩ :=
                ih { st with trace := st.trace ++ [e] } _ _ hnl hrun
              refine ⟨hnl', ?_⟩
              rw [hcount, taskCount_actions, countId_append]
              by_cases he : e.1 = i
              · simp [countId, taskCount, he]
                omega
              · simp [countId, taskCount, he]
          | doAction a =>
              cases a with
              | actDispatch c p =>
                  rw [run] at hrun
                  obtain ⟨hnl', hcount⟩ := ih _ _ _ hnl hrun
                  exact ⟨hnl', by rw [hcount]; simp [taskCount]⟩
              | actOn c cb =>
                  rw [run] at hrun
                  obtain ⟨hnl', hcount⟩ :=
                    ih _ _ _ (notLive_addListener i st.buf hnl c cb false) hrun
                  exact ⟨hnl', by rw [hcount]; simp [taskCount]⟩
              | actOnce c cb =>
                  rw [run] at hrun
                  obtain ⟨hnl', hcount⟩ :=
                    ih _ _ _ (notLive_addListener i st.buf hnl c cb true) hrun
                  exact ⟨hnl', by rw [hcount]; simp [taskCount]⟩
              | actOff c =>
                  rw [run] at hrun
                  obtain ⟨hnl', hcount⟩ := ih _ _ _ (notLive_off i st.buf hnl c) hrun
                  exact ⟨hnl', by rw [hcount]; simp [taskCount]⟩
              | actNone =>
                  rw [run] at hrun
                  obtain ⟨hnl', hcount⟩ := ih _ _ _ hnl hrun
                  exact ⟨hnl', by rw [hcount]; simp [taskCount]⟩

/-! ### Trace structure of a run -/

/-- The invocations already scheduled in a worklist, in order. -/
def taskEntries : List Task → List (Nat × Nat × WorkerMessengerPayload)
  | [] => []
  | Task.doInvoke e :: ts => e :: taskEntries ts
  | Task.doDispatch _ _ :: ts => taskEntries ts
  | Task.doAction _ :: ts => taskEntries ts

theorem taskEntries_invokes (l : List (Nat × Nat × WorkerMessengerPayload))
    (ts : List Task) :
    taskEntries (l.map Task.doInvoke ++ ts) = l ++ taskEntries ts := by
  induction l with
  | nil => simp
  | cons e es ih => simp [taskEntries, ih]

theorem taskEntries_actions (l : List Action) (ts : List Task) :
    taskEntries (l.map Task.doAction ++ ts) = taskEntries ts := by
  induction l with
  | nil => simp
  | cons a acts ih => simp [taskEntries, ih]

/-- A completed run only appends to the trace, and every invocation already
scheduled in the worklist ends up in the appended part, in order (possibly
interleaved with invocations triggered later). -/
theorem run_trace (env : Env) :
    ∀ (fuel : Nat) (st : MState) (tasks : List Task) (st' : MState),
    run env fuel st tasks = some st' →
    st.trace <+: st'.trace ∧
      (taskEntries tasks).Sublist (st'.trace.drop st.trace.length) := by
  intro fuel
  induction fuel with
  | zero => intro st tasks st' h; simp [run] at h
  | succ fuel ih =>
      intro st tasks st' hrun
      cases tasks with
      | nil =>
          rw [run] at hrun
          cases hrun
          exact ⟨List.prefix_refl _, by simp [taskEntries]⟩
      | cons t ts =>
          cases t with
          | doDispatch c p =>
              rw [run] at hrun
              cases hh : onWorkerMessageReceivedFromPage st.buf ⟨c, p⟩ with
              | none => rw [hh] at hrun; simp at hrun
              | some pr =>
                  obtain ⟨buf2, calls⟩ := pr
                  rw [hh] at hrun
                  obtain ⟨hpre, hsub⟩ := ih { st with buf := buf2 } _ _ hrun
                  refine ⟨hpre, ?_⟩
                  rw [taskEntries_invokes] at hsub
                  exact (List.sublist_append_right calls _).trans hsub
          | doInvoke e =>
              rw [run] at hrun
              obtain ⟨hpre, hsub⟩ := ih { st with trace := st.trace ++ [e] } _ _ hrun
              rw [taskEntries_actions] at hsub
              simp only [List.length_append, List.length_singleton] at hsub
              have hpre2 := hpre
              obtain ⟨tail, htail⟩ := hpre2
              simp only [] at htail
              constructor
              · exact (List.prefix_append st.trace [e]).trans hpre
              · have hdrop1 : st'.trace.drop st.trace.length = e :: tail := by
                  rw [← htail]
                  rw [List.append_assoc, List.drop_left, List.singleton_append]
                have hdrop2 : st'.trace.drop (st.trace.length + 1) = tail := by
                  rw [← htail]
                  have hd := List.drop_left (st.trace ++ [e]) tail
                  rw [List.length_append, List.length_singleton] at hd
                  exact hd
                rw [hdrop1, taskEntries]
                rw [hdrop2] at hsub
                exact List.Sublist.cons₂ e hsub
          | doAction a =>
              cases a with
              | actDispatch c p =>
                  rw [run] at hrun
                  obtain ⟨hpre, hsub⟩ := ih _ _ _ hrun
                  exact ⟨hpre, hsub⟩
              | actOn c cb =>
                  rw [run] at hrun
                  obtain ⟨hpre, hsub⟩ := ih { st with buf := onMsg st.buf c cb } _ _ hrun
                  exact ⟨hpre, hsub⟩
              | actOnce c cb =>
                  rw [run] at hrun
                  obtain ⟨hpre, hsub⟩ := ih { st with buf := once st.buf c cb } _ _ hrun
                  exact ⟨hpre, hsub⟩
              | actOff c =>
                  rw [run] at hrun
                  obtain ⟨hpre, hsub⟩ := ih { st with buf := off st.buf c } _ _ hrun
                  exact ⟨hpre, hsub⟩
              | actNone =>
                  rw [run] at hrun
                  obtain ⟨hpre, hsub⟩ := ih _ _ _ hrun
                  exact ⟨hpre, hsub⟩

/-- Under the passive environment, performing the scheduled invocations just
appends them to the trace. -/
theorem run_invokes (entries : List (Nat × Nat × WorkerMessengerPayload)) :
    ∀ (st : MState),
    run envPassive (entries.length + 1) st (entries.map Task.doInvoke) =
      some { st with trace := st.trace ++ entries } := by
  induction entries with
  | nil => intro st; simp [run]
  | cons e es ih =>
      intro st
      simp only [List.length_cons, List.map_cons]
      rw [run]
      simp only [envPassive, List.map_nil, List.nil_append]
      rw [ih { st with trace := st.trace ++ [e] }]
      simp

/-- One dispatch step of the machine, unfolded. -/
theorem run_dispatch_step (env : Env) (fuel : Nat) (st : MState)
    (T : WorkerMessengerCommand) (p : WorkerMessengerPayload) (ts : List Task)
    (buf2 : WorkerMessengerReplyBuffer) (calls : List (Nat × Nat × WorkerMessengerPayload))
    (hh : onWorkerMessageReceivedFromPage st.buf ⟨T, p⟩ = some (buf2, calls)) :
    run env (fuel + 1) st (Task.doDispatch T p :: ts) =
      run env fuel { st with buf := buf2 } (calls.map Task.doInvoke ++ ts) := by
  simp only [run, hh]

/-- Dispatching one message to passive callbacks: the registry is updated by
the handler and the trace becomes exactly the matched records, in order. -/
theorem run_dispatch_trace (buf : WorkerMessengerReplyBuffer)
    (T : WorkerMessengerCommand) (p : WorkerMessengerPayload) :
    ∃ buf2, run envPassive ((findListenersForMessage buf T).length + 2)
        ⟨buf, []⟩ [Task.doDispatch T p] =
      some ⟨buf2, (findListenersForMessage buf T).map (fun r => (r.id, r.callback, p))⟩ := by
  obtain ⟨buf2, hh⟩ := handler_isSome buf ⟨T, p⟩
  refine ⟨buf2, ?_⟩
  show run envPassive ((findListenersForMessage buf T).length + 1 + 1)
      ⟨buf, []⟩ [Task.doDispatch T p] = _
  rw [run_dispatch_step envPassive _ ⟨buf, []⟩ T p [] buf2 _ hh, List.append_nil]
  rw [show (findListenersForMessage buf T).length =
    ((findListenersForMessage buf T).map (fun r => (r.id, r.callback, p))).length
    from (List.length_map _ _).symm]
  exact run_invokes _ ⟨buf2, []⟩

/-- `on(T, cb)` for every callback in the list, left to right. -/
def onList (buf : WorkerMessengerReplyBuffer) (T : WorkerMessengerCommand)
    (cbs : List Nat) : WorkerMessengerReplyBuffer :=
  cbs.foldl (fun b cb => onMsg b T cb) buf

theorem onList_find_callbacks (T : WorkerMessengerCommand) :
    ∀ (cbs : List Nat) (buf : WorkerMessengerReplyBuffer),
    (findListenersForMessage (onList buf T cbs) T).map (fun r => r.callback) =
      (findListenersForMessage buf T).map (fun r => r.callback) ++ cbs := by
  intro cbs
  induction cbs with
  | nil => intro buf; simp [onList]
  | cons cb cbs ih =>
      intro buf
      have hstep : onList buf T (cb :: cbs) = onList (onMsg buf T cb) T cbs := rfl
      rw [hstep, ih (onMsg buf T cb)]
      rw [onMsg, findListeners_addListener_self]
      simp

theorem bounded_find (buf : WorkerMessengerReplyBuffer)
    (hbound : ∀ k arr, getEntry buf.replies k = some (some arr) →
      ∀ r ∈ arr, r.id < buf.nextId) (c : WorkerMessengerCommand) :
    ∀ r ∈ findListenersForMessage buf c, r.id < buf.nextId := by
  intro r hr
  cases hget : getEntry buf.replies (cmdToString c) with
  | none => rw [findListeners_of_undefined _ _ hget] at hr; cases hr
  | some v =>
      cases v with
      | none => rw [findListeners_of_null _ _ hget] at hr; cases hr
      | some arr =>
          rw [findListeners_of_entry _ _ _ hget] at hr
          exact hbound _ _ hget r hr

/-! ### The claims -/

/-- C1: the claim says `deleteListenerRecord(T, r)` is a safe no-op when the
topic has no registered sequence (absent, or nulled by a prior
`deleteListenerRecords`/`off`).  The code reads `.length` of the absent/null
entry and throws a `TypeError` there (first two conjuncts evaluate the code
at such inputs), while the record-not-present part of the claim does hold:
with a sequence present, a missing record leaves the registry unchanged
(third conjunct). -/
theorem C1_deleteListenerRecord_absent_topic_throws :
    deleteListenerRecord emptyBuffer WorkerMessengerCommand.Subscribe ⟨0, 0, false⟩ = none ∧
    deleteListenerRecord
      (deleteListenerRecords (addListener emptyBuffer WorkerMessengerCommand.Subscribe 0 false)
        WorkerMessengerCommand.Subscribe)
      WorkerMessengerCommand.Subscribe ⟨0, 0, false⟩ = none ∧
    deleteListenerRecord (addListener emptyBuffer WorkerMessengerCommand.Subscribe 1 false)
      WorkerMessengerCommand.Subscribe ⟨5, 2, false⟩ =
      some (addListener emptyBuffer WorkerMessengerCommand.Subscribe 1 false) := by
  refine ⟨?_, ?_, ?_⟩ <;> decide

/-- C9: the worker-side receive handler and the page-side receive handler
implement the same dispatch algorithm: on every registry state and every
incoming message they produce the same registry update and the same
sequence of callback invocations. -/
theorem C9_handlers_equal :
    ∀ (buf : WorkerMessengerReplyBuffer) (d : WorkerMessengerMessage),
    onWorkerMessageReceivedFromPage buf d = onPageMessageReceivedFromServiceWorker buf d := by
  intro buf d
  rfl

/-- C5: in the worker role, `unicast(T, payload)` with no target window
client fails with the invalid-argument error and posts nothing; with a
target client it posts `{ command, payload }` to exactly that client. -/
theorem C5_unicast_worker_requires_client :
    ∀ (controller : WindowClient) (c : WorkerMessengerCommand)
      (p : Option WorkerMessengerPayload) (wc : WindowClient),
    unicast WindowEnvironmentKind.ServiceWorker controller c p none =
      Except.error (SdkError.invalidArgument "windowClient" InvalidArgumentReason.Empty) ∧
    unicast WindowEnvironmentKind.ServiceWorker controller c p (some wc) =
      Except.ok [⟨wc, c, p⟩] := by
  intro controller c p wc
  exact ⟨rfl, rfl⟩

/-- C7: `broadcast` invoked from any non-worker (page) role resolves
immediately with no error and posts no message. -/
theorem C7_broadcast_page_noop :
    ∀ (env : WindowEnvironmentKind) (clients : List WindowClient)
      (c : WorkerMessengerCommand) (p : WorkerMessengerPayload),
    env ≠ WindowEnvironmentKind.ServiceWorker →
    broadcast env clients c p = Except.ok [] := by
  intro env clients c p h
  simp [broadcast, h]

theorem C7_broadcast_page_noop_witness :
    broadcast WindowEnvironmentKind.Host [⟨"https://site.example"⟩]
      WorkerMessengerCommand.Subscribe (WorkerMessengerPayload.num 1) = Except.ok [] :=
  C7_broadcast_page_noop WindowEnvironmentKind.Host [⟨"https://site.example"⟩]
    WorkerMessengerCommand.Subscribe (WorkerMessengerPayload.num 1) (by decide)

/-- C8: in the page role `isWorkerControllingPage()` is true exactly when
the fetched activation state is the WorkerA or WorkerB generation; in the
worker role it is true exactly when the worker's own registration reports an
active worker. -/
theorem C8_isWorkerControllingPage_iff :
    ∀ (env : WindowEnvironmentKind) (registrationActive : Bool)
      (workerState : ServiceWorkerActiveState),
    (isWorkerControllingPage WindowEnvironmentKind.ServiceWorker registrationActive
        workerState = true ↔ registrationActive = true) ∧
    (env ≠ WindowEnvironmentKind.ServiceWorker →
      (isWorkerControllingPage env registrationActive workerState = true ↔
        workerState = ServiceWorkerActiveState.WorkerA ∨
          workerState = ServiceWorkerActiveState.WorkerB)) := by
  intro env ra ws
  constructor
  · simp [isWorkerControllingPage]
  · intro h
    simp [isWorkerControllingPage, h]

theorem C8_isWorkerControllingPage_iff_witness :
    isWorkerControllingPage WindowEnvironmentKind.Host false
      ServiceWorkerActiveState.WorkerB = true ↔
      ServiceWorkerActiveState.WorkerB = ServiceWorkerActiveState.WorkerA ∨
        ServiceWorkerActiveState.WorkerB = ServiceWorkerActiveState.WorkerB :=
  (C8_isWorkerControllingPage_iff WindowEnvironmentKind.Host false
    ServiceWorkerActiveState.WorkerB).2 (by decide)

/-- C4: `findListenersForMessage` always yields a list, never a null/absent
value: the current records when the topic has an array entry, and the empty
list when the topic is absent or was nulled; and it tracks the public
operations — cleared by `deleteListenerRecords`/`deleteAllListenerRecords`,
extended by `addListener`, filtered by a successful `deleteListenerRecord`. -/
theorem C4_findListeners_total :
    ∀ (buf : WorkerMessengerReplyBuffer) (c : WorkerMessengerCommand) (cb : Nat)
      (o : Bool) (r : WorkerMessengerReplyBufferRecord),
    (∀ arr, getEntry buf.replies (cmdToString c) = some (some arr) →
      findListenersForMessage buf c = arr) ∧
    (getEntry buf.replies (cmdToString c) = none →
      findListenersForMessage buf c = []) ∧
    (getEntry buf.replies (cmdToString c) = some none →
      findListenersForMessage buf c = []) ∧
    findListenersForMessage (deleteListenerRecords buf c) c = [] ∧
    findListenersForMessage (deleteAllListenerRecords buf) c = [] ∧
    findListenersForMessage (addListener buf c cb o) c =
      findListenersForMessage buf c ++ [⟨buf.nextId, cb, o⟩] ∧
    (∀ buf', deleteListenerRecord buf c r = some buf' →
      findListenersForMessage buf' c =
        (findListenersForMessage buf c).filter (fun x => decide (x.id ≠ r.id))) := by
  intro buf c cb o r
  refine ⟨findListeners_of_entry buf c, findListeners_of_undefined buf c,
    findListeners_of_null buf c,
    findListeners_deleteListenerRecords_self buf c,
    findListeners_deleteAllListenerRecords buf c,
    findListeners_addListener_self buf c cb o, ?_⟩
  intro buf' h
  cases hget : getEntry buf.replies (cmdToString c) with
  | none => rw [deleteListenerRecord_none_undefined buf c r hget] at h; cases h
  | some v =>
      cases v with
      | none => rw [deleteListenerRecord_none_null buf c r hget] at h; cases h
      | some arr =>
          rw [deleteListenerRecord_eq buf c r arr hget] at h
          cases h
          rw [findListeners_of_entry _ _ _ (by rw [getEntry_setEntry, if_pos rfl]),
            findListeners_of_entry _ _ _ hget]

theorem C4_findListeners_total_witness :
    findListenersForMessage (addListener emptyBuffer WorkerMessengerCommand.Subscribe 7 false)
      WorkerMessengerCommand.Subscribe = [⟨0, 7, false⟩] ∧
    findListenersForMessage
      (⟨[("Subscribe", some [])], 1⟩ : WorkerMessengerReplyBuffer)
      WorkerMessengerCommand.Subscribe = [] := by
  constructor
  · exact (C4_findListeners_total
      (addListener emptyBuffer WorkerMessengerCommand.Subscribe 7 false)
      WorkerMessengerCommand.Subscribe 7 false ⟨0, 7, false⟩).1 [⟨0, 7, false⟩] (by decide)
  · have h2 := (C4_findListeners_total
      (addListener emptyBuffer WorkerMessengerCommand.Subscribe 7 false)
      WorkerMessengerCommand.Subscribe 7 false ⟨0, 7, false⟩).2.2.2.2.2.2
      ⟨[("Subscribe", some [])], 1⟩ (by decide)
    rw [h2]
    decide

/-- C3: after registering `on(T, cb_1), ..., on(T, cb_n)` (duplicates
allowed, no deduplication), one dispatch of `(T, p)` to passive callbacks
invokes each registration exactly once, in registration order, with
argument `p`: the trace is exactly the registered records mapped to their
invocations, and the callbacks for `T` are the previously registered ones
followed by `cb_1, ..., cb_n` in order. -/
theorem C3_on_registration_order :
    ∀ (buf : WorkerMessengerReplyBuffer) (T : WorkerMessengerCommand)
      (cbs : List Nat) (p : WorkerMessengerPayload),
    ∃ st', run envPassive ((findListenersForMessage (onList buf T cbs) T).length + 2)
        ⟨onList buf T cbs, []⟩ [Task.doDispatch T p] = some st' ∧
      st'.trace = (findListenersForMessage (onList buf T cbs) T).map
        (fun r => (r.id, r.callback, p)) ∧
      (findListenersForMessage (onList buf T cbs) T).map (fun r => r.callback) =
        (findListenersForMessage buf T).map (fun r => r.callback) ++ cbs := by
  intro buf T cbs p
  obtain ⟨buf2, hrun⟩ := run_dispatch_trace (onList buf T cbs) T p
  exact ⟨⟨buf2, (findListenersForMessage (onList buf T cbs) T).map
      (fun r => (r.id, r.callback, p))⟩,
    hrun, rfl, onList_find_callbacks T cbs buf⟩

/-- C6: `off(T)` removes all and only T's listeners: dispatching T
afterwards invokes nothing and leaves the registry as is, every other
topic's listeners survive unchanged and are still invoked by a dispatch of
that topic, and `off()` with no argument clears every topic. -/
theorem C6_off_topic_scoped :
    ∀ (buf : WorkerMessengerReplyBuffer) (T U : WorkerMessengerCommand)
      (p q : WorkerMessengerPayload) (env : Env) (fuel : Nat),
    U ≠ T →
    run env (fuel + 2) ⟨off buf (some T), []⟩ [Task.doDispatch T p] =
      some ⟨off buf (some T), []⟩ ∧
    findListenersForMessage (off buf (some T)) U = findListenersForMessage buf U ∧
    (∃ buf2, run envPassive ((findListenersForMessage buf U).length + 2)
        ⟨off buf (some T), []⟩ [Task.doDispatch U q] =
      some ⟨buf2, (findListenersForMessage buf U).map (fun r => (r.id, r.callback, q))⟩) ∧
    (∀ V, findListenersForMessage (off buf none) V = []) := by
  intro buf T U p q env fuel hUT
  have hTU : cmdToString T ≠ cmdToString U :=
    fun h => hUT (cmdToString_injective T U h).symm
  have hfindU : findListenersForMessage (off buf (some T)) U =
      findListenersForMessage buf U :=
    findListeners_deleteListenerRecords_other buf T U hTU
  refine ⟨?_, hfindU, ?_, ?_⟩
  · have hempty : findListenersForMessage (off buf (some T)) T = [] :=
      findListeners_deleteListenerRecords_self buf T
    have hh := handler_of_empty (off buf (some T)) ⟨T, p⟩ hempty
    show run env (fuel + 1 + 1) ⟨off buf (some T), []⟩ [Task.doDispatch T p] = _
    rw [run_dispatch_step env (fuel + 1) ⟨off buf (some T), []⟩ T p []
      (off buf (some T)) [] hh]
    show run env (fuel + 1) ⟨off buf (some T), []⟩ [] = _
    rw [run]
  · obtain ⟨buf2, hrun⟩ := run_dispatch_trace (off buf (some T)) U q
    rw [hfindU] at hrun
    exact ⟨buf2, hrun⟩
  · intro V
    exact findListeners_deleteAllListenerRecords buf V

theorem C6_off_topic_scoped_witness :
    findListenersForMessage
      (off (addListener emptyBuffer WorkerMessengerCommand.Subscribe 3 false)
        (some WorkerMessengerCommand.WorkerVersion))
      WorkerMessengerCommand.Subscribe =
    findListenersForMessage (addListener emptyBuffer WorkerMessengerCommand.Subscribe 3 false)
      WorkerMessengerCommand.Subscribe :=
  (C6_off_topic_scoped (addListener emptyBuffer WorkerMessengerCommand.Subscribe 3 false)
    WorkerMessengerCommand.WorkerVersion WorkerMessengerCommand.Subscribe
    (WorkerMessengerPayload.num 0) (WorkerMessengerPayload.num 0)
    envPassive 0 (by decide)).2.1

/-- C10: within a single dispatch of `T`, the invoked callbacks are fixed
by the registry at dispatch start: every record matched then is invoked
with the payload, in order, even when callbacks running earlier in the same
dispatch unregister listeners (`off(T)`, `off()`) or re-dispatch — the
snapshot of matched records embeds into the final trace as a subsequence. -/
theorem C10_dispatch_snapshot :
    ∀ (env : Env) (fuel : Nat) (buf : WorkerMessengerReplyBuffer)
      (T : WorkerMessengerCommand) (p : WorkerMessengerPayload) (st' : MState),
    run env fuel ⟨buf, []⟩ [Task.doDispatch T p] = some st' →
    ((findListenersForMessage buf T).map
      (fun r => (r.id, r.callback, p))).Sublist st'.trace := by
  intro env fuel buf T p st' hrun
  cases fuel with
  | zero => simp [run] at hrun
  | succ fuel =>
      cases hh : onWorkerMessageReceivedFromPage buf ⟨T, p⟩ with
      | none =>
          obtain ⟨b2, hb2⟩ := handler_isSome buf ⟨T, p⟩
          rw [hb2] at hh
          cases hh
      | some pr =>
          obtain ⟨buf2, calls⟩ := pr
          rw [run_dispatch_step env fuel ⟨buf, []⟩ T p [] buf2 calls hh] at hrun
          obtain ⟨hpre, hsub⟩ := run_trace env fuel _ _ _ hrun
          rw [taskEntries_invokes] at hsub
          simp only [taskEntries, List.append_nil, List.length_nil,
            List.drop_zero] at hsub
          rw [handler_calls buf buf2 ⟨T, p⟩ calls hh] at hsub
          exact hsub

theorem C10_dispatch_snapshot_witness :
    ((findListenersForMessage
        (onMsg (onMsg emptyBuffer WorkerMessengerCommand.Subscribe 0)
          WorkerMessengerCommand.Subscribe 1)
        WorkerMessengerCommand.Subscribe).map
      (fun r => (r.id, r.callback, WorkerMessengerPayload.num 7))).Sublist
      ((⟨⟨[], 2⟩, [(0, 0, WorkerMessengerPayload.num 7),
        (1, 1, WorkerMessengerPayload.num 7)]⟩ : MState).trace) :=
  C10_dispatch_snapshot
    (fun c => if c = 0 then [Action.actOff none] else []) 10
    (onMsg (onMsg emptyBuffer WorkerMessengerCommand.Subscribe 0)
      WorkerMessengerCommand.Subscribe 1)
    WorkerMessengerCommand.Subscribe (WorkerMessengerPayload.num 7)
    ⟨⟨[], 2⟩, [(0, 0, WorkerMessengerPayload.num 7),
      (1, 1, WorkerMessengerPayload.num 7)]⟩ (by decide)

theorem notLive_mk (A : Replies) (n : Nat) (i : Nat) (h1 : i < n)
    (h2 : ∀ k arr, getEntry A k = some (some arr) → ∀ r ∈ arr, r.id ≠ i) :
    NotLive i ⟨A, n⟩ :=
  ⟨h1, h2⟩

/-- After `once(T, cb)` on a registry whose record identities are all below
the allocation counter, dispatching `T` removes the fresh once-only record
from the registry before any callback runs: its identity is no longer live
in the handler's output registry. -/
theorem once_dispatch_killed (buf : WorkerMessengerReplyBuffer)
    (T : WorkerMessengerCommand) (cb : Nat) (p : WorkerMessengerPayload)
    (buf2 : WorkerMessengerReplyBuffer) (calls : List (Nat × Nat × WorkerMessengerPayload))
    (hbound : ∀ k arr, getEntry buf.replies k = some (some arr) →
      ∀ r ∈ arr, r.id < buf.nextId)
    (hh : onWorkerMessageReceivedFromPage (once buf T cb) ⟨T, p⟩ = some (buf2, calls)) :
    NotLive buf.nextId buf2 := by
  have hentry : getEntry (once buf T cb).replies (cmdToString T) =
      some (some (findListenersForMessage buf T ++ [⟨buf.nextId, cb, true⟩])) := by
    show getEntry (addListener buf T cb true).replies (cmdToString T) = _
    rw [getEntry_addListener, if_pos rfl]
  rw [handler_of_entry (once buf T cb) ⟨T, p⟩
    (findListenersForMessage buf T ++ [⟨buf.nextId, cb, true⟩]) hentry] at hh
  simp only [Option.some.injEq, Prod.mk.injEq] at hh
  obtain ⟨hb2, hcalls⟩ := hh
  rw [← hb2]
  refine notLive_mk _ _ _ ?_ ?_
  · show buf.nextId < (once buf T cb).nextId
    show buf.nextId < (addListener buf T cb true).nextId
    rw [nextId_addListener]
    omega
  · intro k arr2 hget r hr
    rw [getEntry_setEntry] at hget
    by_cases hk : cmdToString T = k
    · rw [if_pos hk] at hget
      cases hget
      obtain ⟨hmem, hpred⟩ := List.mem_filter.mp hr
      rcases List.mem_append.mp hmem with h1 | h1
      · exact (bounded_find buf hbound T r h1).ne
      · rw [List.mem_singleton] at h1
        subst h1
        exfalso
        have hrecmem : (⟨buf.nextId, cb, true⟩ : WorkerMessengerReplyBufferRecord) ∈
            (findListenersForMessage buf T ++
              ([⟨buf.nextId, cb, true⟩] : List WorkerMessengerReplyBufferRecord)).filter
              (fun t => t.onceListenerOnly) :=
          List.mem_filter.mpr
            ⟨List.mem_append.mpr (Or.inr (List.mem_singleton.mpr rfl)), rfl⟩
        have hfalse := List.all_eq_true.mp hpred _ hrecmem
        simp at hfalse
    · rw [if_neg hk] at hget
      have hget' : getEntry buf.replies k = some (some arr2) := by
        have hstep : getEntry (once buf T cb).replies k = getEntry buf.replies k := by
          show getEntry (addListener buf T cb true).replies k = _
          rw [getEntry_addListener, if_neg hk]
        rw [← hstep]
        exact hget
      exact (hbound _ _ hget' r hr).ne

/-- C2: a listener registered with `once(T, cb)` is invoked on the first
dispatch of T exactly once, its record is removed from the registry before
any callback of that dispatch runs (no once-only record remains for T in
the handler's output registry), and it is not invoked on any later dispatch
of T — even when callbacks re-dispatch T from within themselves (`env` is
arbitrary, so the first run covers every re-entrant behaviour). -/
theorem C2_once_invoked_exactly_once :
    ∀ (env : Env) (buf : WorkerMessengerReplyBuffer) (T : WorkerMessengerCommand)
      (cb : Nat) (p : WorkerMessengerPayload) (fuel : Nat) (st1 : MState),
    (∀ k arr, getEntry buf.replies k = some (some arr) →
      ∀ r ∈ arr, r.id < buf.nextId) →
    run env fuel ⟨once buf T cb, []⟩ [Task.doDispatch T p] = some st1 →
    countId buf.nextId st1.trace = 1 ∧
    (∀ buf2 calls,
      onWorkerMessageReceivedFromPage (once buf T cb) ⟨T, p⟩ = some (buf2, calls) →
      ∀ r ∈ findListenersForMessage buf2 T, r.onceListenerOnly = false) ∧
    (∀ fuel2 p2 st2, run env fuel2 st1 [Task.doDispatch T p2] = some st2 →
      countId buf.nextId st2.trace = 1) := by
  intro env buf T cb p fuel st1 hbound hrun
  cases fuel with
  | zero => simp [run] at hrun
  | succ fuel =>
      cases hh : onWorkerMessageReceivedFromPage (once buf T cb) ⟨T, p⟩ with
      | none =>
          obtain ⟨b2, hb2⟩ := handler_isSome (once buf T cb) ⟨T, p⟩
          rw [hb2] at hh
          cases hh
      | some pr =>
          obtain ⟨buf2, calls⟩ := pr
          rw [run_dispatch_step env fuel ⟨once buf T cb, []⟩ T p [] buf2 calls hh] at hrun
          have hnl2 : NotLive buf.nextId buf2 :=
            once_dispatch_killed buf T cb p buf2 calls hbound hh
          obtain ⟨hnl1, hcnt1⟩ := run_count buf.nextId env fuel _ _ _ hnl2 hrun
          have hcalls0 : calls =
              (findListenersForMessage buf T ++
                ([⟨buf.nextId, cb, true⟩] : List WorkerMessengerReplyBufferRecord)).map
                (fun r => (r.id, r.callback, p)) := by
            have h := handler_calls _ _ _ _ hh
            rw [show findListenersForMessage (once buf T cb)
                (WorkerMessengerMessage.mk T p).command =
                findListenersForMessage buf T ++
                  ([⟨buf.nextId, cb, true⟩] : List WorkerMessengerReplyBufferRecord) from by
              show findListenersForMessage (addListener buf T cb true) T = _
              exact findListeners_addListener_self buf T cb true] at h
            exact h
          have hcalls1 : countId buf.nextId calls = 1 := by
            rw [hcalls0, List.map_append, countId_append]
            have h0 : countId buf.nextId
                ((findListenersForMessage buf T).map
                  (fun r => (r.id, r.callback, p))) = 0 := by
              apply countId_zero
              intro e he
              obtain ⟨r, hr, rfl⟩ := List.mem_map.mp he
              exact (bounded_find buf hbound T r hr).ne
            rw [h0]
            simp [countId]
          have hmain : countId buf.nextId st1.trace = 1 := by
            rw [hcnt1, taskCount_invokes, hcalls1]
            simp [countId, taskCount]
          refine ⟨hmain, ?_, ?_⟩
          · intro b2 cs hh2
            exact handler_once_removed _ _ _ _ (hh.trans hh2)
          · intro fuel2 p2 st2 hrun2
            obtain ⟨_, hcnt2⟩ := run_count buf.nextId env fuel2 st1 _ _ hnl1 hrun2
            rw [hcnt2, hmain]
            simp [taskCount]

theorem C2_once_invoked_exactly_once_witness :
    countId 0
      ((⟨⟨[("notification.displayed", some [])], 1⟩,
        [(0, 0, WorkerMessengerPayload.boolean true)]⟩ : MState).trace) = 1 :=
  (C2_once_invoked_exactly_once
    (fun _ => [Action.actDispatch WorkerMessengerCommand.NotificationDisplayed
      (WorkerMessengerPayload.boolean true)])
    emptyBuffer WorkerMessengerCommand.NotificationDisplayed 0
    (WorkerMessengerPayload.boolean true) 10
    ⟨⟨[("notification.displayed", some [])], 1⟩,
      [(0, 0, WorkerMessengerPayload.boolean true)]⟩
    (by intro k arr h; simp [emptyBuffer, getEntry] at h) (by decide)).1

end WM
